import Mathlib

/-!
# Verification of the voice-bot audio relay pipeline

A shallow embedding of the audio relay / resampling pipeline of the
voice_bot repository (`main.py`, `app.py`, `audio_component.py`), together
with proofs of the specification's testable properties.

Audio samples (JS `Float32Array` entries) are modelled as exact rationals;
sample rates and buffer indices are naturals; device-clock times and buffer
durations (JS `audioContext.currentTime`, `audioBuffer.duration`) are
rationals.
-/

set_option autoImplicit false

namespace VoiceBot

/-! ## Resampling (audio_component.py)

Two resampling sites exist in `audio_component.py`:

* the capture path (`processor.onaudioprocess`, lines 94-123): downsamples
  the microphone signal from the browser rate to 16 kHz, but only when
  `ratio = inputSampleRate / targetSampleRate > 1`; otherwise the buffer is
  passed through unchanged;
* the playback path (`playAudio`, lines 243-294): resamples the 24 kHz
  response to the device rate whenever the two rates differ, with a bounds
  guard on the source index (unassigned slots of the freshly allocated
  `Float32Array` stay `0`).

In exact arithmetic the JS expressions `Math.floor(i * (s / t))` and
`Math.floor(i / (t / s))` both equal `(i * s) / t` in natural division, and
`Math.floor(len / (s / t))` and `Math.floor(len * (t / s))` both equal
`(len * t) / s`.
-/

/-- Capture-path downsampler, from `processor.onaudioprocess`
(audio_component.py lines 98-114): when `targetRate < inputRate` the output
has `⌊len * t / s⌋` samples and `output[i] = input[⌊i * s / t⌋]`;
otherwise the input buffer is returned unchanged. -/
def downsampleCapture (inputRate targetRate : ℕ) (input : List ℚ) : List ℚ :=
  if targetRate < inputRate then
    (List.range (input.length * targetRate / inputRate)).map
      (fun i => input.getD (i * inputRate / targetRate) 0)
  else
    input

/-- Playback-path rate converter, from `playAudio`
(audio_component.py lines 262-277): when the rates differ the output has
`⌊len * t / s⌋` samples and `output[i] = input[⌊i * s / t⌋]` whenever that
source index is in bounds (otherwise the slot keeps its initial `0`);
when the rates are equal the input passes through unchanged. -/
def resamplePlayback (sourceRate targetRate : ℕ) (input : List ℚ) : List ℚ :=
  if sourceRate ≠ targetRate then
    (List.range (input.length * targetRate / sourceRate)).map
      (fun i =>
        if i * sourceRate / targetRate < input.length then
          input.getD (i * sourceRate / targetRate) 0
        else 0)
  else
    input

/-- A PCM frame: a sample rate, a channel count and the samples.  All
frames in the repository are mono (`channelCount: 1` on capture,
`createBuffer(1, …)` on playback). -/
structure PcmFrame where
  rate : ℕ
  channels : ℕ
  data : List ℚ
  deriving DecidableEq

/-- Frame-level playback resampling, from `playAudio`
(audio_component.py lines 262-281): the rate-change branch is taken only
when `geminiSampleRate !== targetSampleRate`; the output buffer is created
mono (`createBuffer(1, outputLength, targetSampleRate)`).  The code has no
channel-conversion parameter: every frame it handles is mono. -/
def resampleFrame (f : PcmFrame) (targetRate : ℕ) : PcmFrame :=
  if f.rate ≠ targetRate then
    ⟨targetRate, 1, resamplePlayback f.rate targetRate f.data⟩
  else
    f

/-! ## Playback scheduling (audio_component.py, `playNextInQueue`)

`playNextInQueue` (lines 202-240) pops buffers from the FIFO `audioQueue`
and schedules each at `nextPlayTime`, first bumping `nextPlayTime` up to
`audioContext.currentTime` if it has fallen behind, then advancing it by
the buffer's duration.  `nextPlayTime` is initialised to `0`.  A schedule
run is modelled as a fold over the list of (device-clock reading at
scheduling time, buffer duration) pairs, in submission order, producing
the (start time, duration) pair of each buffer. -/

/-- One scheduling step, from audio_component.py lines 233-239: the start
time is `nextPlayTime` bumped up to the current device clock, and the new
`nextPlayTime` is the start time plus the buffer's duration. -/
def scheduleFrom (nextPlayTime : ℚ) : List (ℚ × ℚ) → List (ℚ × ℚ)
  | [] => []
  | (clock, dur) :: rest =>
    (if nextPlayTime < clock then clock else nextPlayTime, dur) ::
      scheduleFrom ((if nextPlayTime < clock then clock else nextPlayTime) + dur) rest

/-! ## Session lifecycle (main.py)

`GeminiLiveBot.run` (lines 121-152) wraps the two loops in
`async with client.aio.live.connect(...) as session:` inside a
`try/except/finally`.  When `asyncio.gather` returns (both loops have
exited), the `async with` block closes the channel session first; then the
`finally:` clause runs `cleanup` (lines 154-162), which closes the capture
stream, then the playback stream, then terminates PyAudio.  All `send`
calls happen inside the send loop and all `submit` (stream write) calls
inside the receive loop, both of which complete before `gather` returns. -/

/-- Observable lifecycle events of one session. -/
inductive Ev
  | sendEv
  | submitEv
  | closeChannel
  | closeCapture
  | closePlayback
  | terminateEv
  deriving DecidableEq

/-- The teardown events of `cleanup` (main.py lines 154-162): stop/close
the input stream, stop/close the output stream, terminate PyAudio. -/
def cleanupEvents : List Ev := [Ev.closeCapture, Ev.closePlayback, Ev.terminateEv]

/-- The event trace of `run` (main.py lines 140-152): an arbitrary body of
send/submit events from the two loops, then the `async with` exit closes
the channel, then `cleanup` runs. -/
def runTrace (body : List Ev) : List Ev :=
  body ++ (Ev.closeChannel :: cleanupEvents)

/-- Number of occurrences of an event in a trace. -/
def countEv (e : Ev) : List Ev → ℕ
  | [] => 0
  | x :: xs => (if x = e then 1 else 0) + countEv e xs

/-- Index of the first occurrence of an event in a trace (length of the
trace if absent). -/
def idxOfEv (e : Ev) : List Ev → ℕ
  | [] => 0
  | x :: xs => if x = e then 0 else idxOfEv e xs + 1

/-! ## Error reporting (main.py) -/

/-- Human-readable output of the send loop's exception handler
(main.py lines 81-83): prints a send-error line when the session is still
running, and is silent when the session has already been stopped. -/
def sendLoopErrorOutput (isRunning : Bool) : List String :=
  if isRunning then ["Send Error"] else []

/-- Human-readable output of the receive loop's exception handler
(main.py lines 117-119): prints a receive-error line when the session is
still running. -/
def receiveLoopErrorOutput (isRunning : Bool) : List String :=
  if isRunning then ["Receive Error"] else []

/-- Human-readable output of `run`'s exception handler
(main.py lines 148-150): unconditionally prints the traceback and a
connection-failed line. -/
def connectFailureOutput : List String := ["traceback", "Connection Failed"]

/-! ## Audio configuration (main.py lines 24-26 and 47-63) -/

/-- PyAudio sample formats used by the program. -/
inductive SampleFormat
  | int16
  deriving DecidableEq

/-- Configuration of one PyAudio stream, as passed to `audio.open`. -/
structure StreamConfig where
  format : SampleFormat
  channels : ℕ
  rate : ℕ
  deriving DecidableEq

/-- main.py line 24. -/
def INPUT_RATE : ℕ := 16000

/-- main.py line 25. -/
def OUTPUT_RATE : ℕ := 24000

/-- main.py line 26. -/
def CHUNK_SIZE : ℕ := 512

/-- The microphone stream configuration (main.py lines 49-55). -/
def inputStreamConfig : StreamConfig :=
  { format := SampleFormat.int16, channels := 1, rate := INPUT_RATE }

/-- The speaker stream configuration (main.py lines 57-63). -/
def outputStreamConfig : StreamConfig :=
  { format := SampleFormat.int16, channels := 1, rate := OUTPUT_RATE }

/-- The MIME type attached to every outbound chunk (main.py line 76). -/
def sendMimeType : String := "audio/pcm;rate=16000"

/-- The fixed capture target rate in the browser component
(audio_component.py line 99). -/
def captureTargetSampleRate : ℕ := 16000

/-- The fixed inbound rate assumed for service audio in the browser
component (audio_component.py line 248). -/
def geminiSampleRate : ℕ := 24000

/-! ## Float32 → Int16 conversion -/

/-- JS `ToIntegerOrInfinity`-style truncation toward zero, as performed
when a number is stored into an `Int16Array`. -/
def jsTrunc (q : ℚ) : ℤ :=
  if q < 0 then ⌈q⌉ else ⌊q⌋

/-- `convertFloat32ToInt16` (app.py lines 331-338): clamp the sample to
`[-1, 1]`, then scale negatives by `0x8000` and non-negatives by
`0x7FFF`, truncating on storage. -/
def convertFloat32ToInt16 (x : ℚ) : ℤ :=
  if max (-1) (min 1 x) < 0 then jsTrunc (max (-1) (min 1 x) * 32768)
  else jsTrunc (max (-1) (min 1 x) * 32767)

/-- The conversion in `processor.onaudioprocess`
(audio_component.py line 119): scale by `32768` first, then clamp the
result to `[-32768, 32767]`, truncating on storage. -/
def captureFloat32ToInt16 (x : ℚ) : ℤ :=
  jsTrunc (max (-32768) (min 32767 (x * 32768)))

/-! ## Theorems -/

/-- The source index `⌊i * s / t⌋` computed for a valid output index
`i < ⌊len * t / s⌋` is always in bounds of the input buffer. -/
theorem srcIndex_lt {s t len i : ℕ} (h : i < len * t / s) :
    i * s / t < len := by
  rcases Nat.eq_zero_or_pos t with ht | ht
  · subst ht; simp at h
  rcases Nat.eq_zero_or_pos s with hs | hs
  · subst hs; simp at h
  have h1 : (i + 1) * s ≤ len * t :=
    (Nat.le_div_iff_mul_le hs).mp h
  have h2 : i * s < len * t :=
    lt_of_lt_of_le ((Nat.mul_lt_mul_right hs).mpr (Nat.lt_succ_self i)) h1
  exact (Nat.div_lt_iff_lt_mul ht).mpr h2

/-- C2: resampling a frame to its own rate (and hence its own channel
count, which the mono-only code never alters) returns the frame unchanged,
on both the playback path and the capture path. -/
theorem resample_identity (f : PcmFrame) (r : ℕ) (input : List ℚ) :
    resampleFrame f f.rate = f ∧ downsampleCapture r r input = input := by
  constructor
  · simp [resampleFrame]
  · simp [downsampleCapture]

/-- When the rates differ, the playback resampler outputs exactly
`⌊len * t / s⌋` samples. -/
theorem resamplePlayback_length_ne {s t : ℕ} (h : s ≠ t) (input : List ℚ) :
    (resamplePlayback s t input).length = input.length * t / s := by
  simp [resamplePlayback, h]

/-- When the target rate is below the input rate, the capture downsampler
outputs exactly `⌊len * t / s⌋` samples. -/
theorem downsampleCapture_length_lt {s t : ℕ} (h : t < s) (input : List ℚ) :
    (downsampleCapture s t input).length = input.length * t / s := by
  simp [downsampleCapture, h]

/-- When the target rate is not below the input rate, the capture path
passes the buffer through unchanged. -/
theorem downsampleCapture_eq_of_le {s t : ℕ} (h : ¬ t < s) (input : List ℚ) :
    downsampleCapture s t input = input := by
  simp [downsampleCapture, h]

/-- C3 counterexample: on the capture path with input rate 8000 Hz and
target rate 16000 Hz the buffer is passed through unchanged, so the
output sample at index 1 is not the input sample at index
`⌊1 × 8000 / 16000⌋ = 0`. -/
theorem capture_index_map_cex :
    (downsampleCapture 8000 16000 [(0 : ℚ), 1]).getD 1 0 ≠
      [(0 : ℚ), 1].getD (1 * 8000 / 16000) 0 := by
  decide

/-- C3 (amended): the nearest-neighbor index mapping
`output[i] = input[⌊i × input_rate / target_rate⌋]` holds for every valid
output index on the playback resampler for all positive rates, and on the
capture downsampler whenever `target_rate ≤ input_rate`; when
`input_rate < target_rate` the capture path returns the input unchanged
instead. -/
theorem resample_index_map (s t i : ℕ) (hs : 0 < s) (ht : 0 < t)
    (input : List ℚ) :
    (i < (resamplePlayback s t input).length →
       (resamplePlayback s t input).getD i 0 = input.getD (i * s / t) 0)
    ∧ (t ≤ s → i < (downsampleCapture s t input).length →
       (downsampleCapture s t input).getD i 0 = input.getD (i * s / t) 0) := by
  constructor
  · intro hi
    by_cases hst : s = t
    · subst hst
      simp only [resamplePlayback, ne_eq, not_true_eq_false, if_false] at hi ⊢
      rw [Nat.mul_div_cancel _ hs]
    · rw [resamplePlayback_length_ne hst] at hi
      have hsrc : i * s / t < input.length := srcIndex_lt hi
      simp only [resamplePlayback, ne_eq, hst, not_false_eq_true, if_pos]
      rw [List.getD_eq_getElem _ _ (by simpa using hi)]
      simp [hi, hsrc]
  · intro hts hi
    by_cases hst : t < s
    · rw [downsampleCapture_length_lt hst] at hi
      simp only [downsampleCapture, hst, if_pos]
      rw [List.getD_eq_getElem _ _ (by simpa using hi)]
      simp [hi]
    · have hteq : t = s := Nat.le_antisymm hts (Nat.le_of_not_lt hst)
      subst hteq
      rw [downsampleCapture_eq_of_le hst] at hi ⊢
      rw [Nat.mul_div_cancel _ ht]

/-- Witness for the amended C3 at input rate 48000 Hz, target 16000 Hz,
frame `[1, 2, 3]`, output index 0. -/
theorem resample_index_map_witness :
    ((resamplePlayback 48000 16000 [(1 : ℚ), 2, 3]).getD 0 0 =
       [(1 : ℚ), 2, 3].getD (0 * 48000 / 16000) 0)
    ∧ ((downsampleCapture 48000 16000 [(1 : ℚ), 2, 3]).getD 0 0 =
       [(1 : ℚ), 2, 3].getD (0 * 48000 / 16000) 0) :=
  ⟨(resample_index_map 48000 16000 0 (by decide) (by decide) [(1 : ℚ), 2, 3]).1
     (by decide),
   (resample_index_map 48000 16000 0 (by decide) (by decide) [(1 : ℚ), 2, 3]).2
     (by decide) (by decide)⟩

/-- C5: both resampling paths are total: an empty input frame produces an
empty output frame, and every source index either path computes for a
valid output index is strictly within the input buffer's bounds (so the
playback bounds guard never fires and no access can fail). -/
theorem resample_safe (s t i : ℕ) (input : List ℚ) :
    (input = [] → resamplePlayback s t input = [] ∧
       downsampleCapture s t input = [])
    ∧ (s ≠ t → i < (resamplePlayback s t input).length →
       i * s / t < input.length)
    ∧ (t < s → i < (downsampleCapture s t input).length →
       i * s / t < input.length) := by
  refine ⟨?_, ?_, ?_⟩
  · rintro rfl
    constructor
    · by_cases hst : s = t <;> simp [resamplePlayback, hst]
    · by_cases hts : t < s <;> simp [downsampleCapture, hts]
  · intro hst hi
    rw [resamplePlayback_length_ne hst] at hi
    exact srcIndex_lt hi
  · intro hts hi
    rw [downsampleCapture_length_lt hts] at hi
    exact srcIndex_lt hi

/-- Witness for C5 at the empty frame with rates 24000 Hz and 48000 Hz,
and, via the index clauses, at rates 48000 Hz → 16000 Hz on the
three-sample frame of the index-mapping witness. -/
theorem resample_safe_witness :
    (resamplePlayback 24000 48000 ([] : List ℚ) = [] ∧
       downsampleCapture 24000 48000 ([] : List ℚ) = [])
    ∧ (0 * 48000 / 16000 < ([(1 : ℚ), 2, 3] : List ℚ).length) :=
  ⟨(resample_safe 24000 48000 0 ([] : List ℚ)).1 rfl,
   (resample_safe 48000 16000 0 [(1 : ℚ), 2, 3]).2.1 (by decide) (by decide)⟩

/-- Truncating division of naturals lands within 1 below the rounded
rational quotient. -/
theorem natDiv_round_bounds (a b : ℕ) (hb : 0 < b) :
    ((a / b : ℕ) : ℤ) ≤ round ((a : ℚ) / (b : ℚ)) ∧
      round ((a : ℚ) / (b : ℚ)) ≤ ((a / b : ℕ) : ℤ) + 1 := by
  have hbQ : (0 : ℚ) < (b : ℚ) := by exact_mod_cast hb
  have h1 : ((a / b : ℕ) : ℚ) ≤ (a : ℚ) / (b : ℚ) := by
    rw [le_div_iff₀ hbQ]
    exact_mod_cast Nat.div_mul_le_self a b
  have hmod : a < b * (a / b) + b := by
    conv_lhs => rw [← Nat.div_add_mod a b]
    exact Nat.add_lt_add_left (Nat.mod_lt a hb) _
  have h2 : (a : ℚ) / (b : ℚ) < ((a / b : ℕ) : ℚ) + 1 := by
    rw [div_lt_iff₀ hbQ]
    have : (a : ℚ) < (b : ℚ) * ((a / b : ℕ) : ℚ) + (b : ℚ) := by
      exact_mod_cast hmod
    linarith
  have hfloor : ⌊(a : ℚ) / (b : ℚ)⌋ = ((a / b : ℕ) : ℤ) := by
    rw [Int.floor_eq_iff]
    constructor
    · exact_mod_cast h1
    · push_cast
      exact h2
  constructor
  · rw [round_eq, ← hfloor]
    exact Int.floor_mono (by linarith)
  · rw [round_eq]
    have hle : ⌊(a : ℚ) / (b : ℚ) + 1 / 2⌋ ≤ ⌊(a : ℚ) / (b : ℚ) + 1⌋ :=
      Int.floor_mono (by linarith)
    rw [Int.floor_add_one, hfloor] at hle
    exact hle

/-- For a positive source rate, the playback resampler always outputs
`⌊len * t / s⌋` samples (also in the equal-rate pass-through case). -/
theorem resamplePlayback_length {s : ℕ} (t : ℕ) (hs : 0 < s)
    (input : List ℚ) :
    (resamplePlayback s t input).length = input.length * t / s := by
  by_cases hst : s = t
  · subst hst
    simp [resamplePlayback, Nat.mul_div_cancel _ hs]
  · exact resamplePlayback_length_ne hst input

/-- For `t ≤ s` with `t` positive, the capture downsampler outputs
`⌊len * t / s⌋` samples (also in the equal-rate pass-through case). -/
theorem downsampleCapture_length_le {s t : ℕ} (hts : t ≤ s) (ht : 0 < t)
    (input : List ℚ) :
    (downsampleCapture s t input).length = input.length * t / s := by
  by_cases hlt : t < s
  · exact downsampleCapture_length_lt hlt input
  · have hteq : t = s := Nat.le_antisymm hts (Nat.le_of_not_lt hlt)
    subst hteq
    simp [downsampleCapture, Nat.mul_div_cancel _ ht]

/-- C4 counterexample: on the capture path with input rate 8000 Hz and
target rate 24000 Hz the buffer passes through with its 3 samples, which
is 6 away from `round(3 × 24000 / 8000) = 9`. -/
theorem capture_length_cex :
    ¬ (|((downsampleCapture 8000 24000 [(0 : ℚ), 0, 0]).length : ℤ) -
          round ((([(0 : ℚ), 0, 0].length * 24000 : ℕ) : ℚ) / (8000 : ℚ))| ≤ 1) := by
  have h9 : round ((([(0 : ℚ), 0, 0].length * 24000 : ℕ) : ℚ) / (8000 : ℚ)) = 9 := by
    norm_num [round_eq]
  rw [h9]
  norm_num [downsampleCapture]

/-- C4 (amended): the output sample count is within ±1 of
`round(len × target_rate / input_rate)` on the playback resampler for all
positive rates, and on the capture downsampler whenever
`target_rate ≤ input_rate`; when `input_rate < target_rate` the capture
path instead keeps the input's own sample count. -/
theorem resample_length_bound (s t : ℕ) (hs : 0 < s) (ht : 0 < t)
    (input : List ℚ) :
    (((resamplePlayback s t input).length : ℤ) ≤
         round (((input.length * t : ℕ) : ℚ) / (s : ℚ)) ∧
       round (((input.length * t : ℕ) : ℚ) / (s : ℚ)) ≤
         ((resamplePlayback s t input).length : ℤ) + 1)
    ∧ (t ≤ s →
       ((downsampleCapture s t input).length : ℤ) ≤
           round (((input.length * t : ℕ) : ℚ) / (s : ℚ)) ∧
         round (((input.length * t : ℕ) : ℚ) / (s : ℚ)) ≤
           ((downsampleCapture s t input).length : ℤ) + 1)
    ∧ (s < t → (downsampleCapture s t input).length = input.length) := by
  refine ⟨?_, ?_, ?_⟩
  · rw [resamplePlayback_length t hs input]
    exact natDiv_round_bounds (input.length * t) s hs
  · intro hts
    rw [downsampleCapture_length_le hts ht input]
    exact natDiv_round_bounds (input.length * t) s hs
  · intro hst
    exact congrArg List.length
      (downsampleCapture_eq_of_le (Nat.lt_asymm hst) input)

/-- Witness for the amended C4 at rates 48000 Hz → 16000 Hz on a
three-sample frame (both bounded clauses) and 16000 Hz → 48000 Hz on a
one-sample frame (pass-through clause). -/
theorem resample_length_bound_witness :
    (((resamplePlayback 48000 16000 [(1 : ℚ), 2, 3]).length : ℤ) ≤
         round ((([(1 : ℚ), 2, 3].length * 16000 : ℕ) : ℚ) / (48000 : ℚ)) ∧
       round ((([(1 : ℚ), 2, 3].length * 16000 : ℕ) : ℚ) / (48000 : ℚ)) ≤
         ((resamplePlayback 48000 16000 [(1 : ℚ), 2, 3]).length : ℤ) + 1)
    ∧ (((downsampleCapture 48000 16000 [(1 : ℚ), 2, 3]).length : ℤ) ≤
         round ((([(1 : ℚ), 2, 3].length * 16000 : ℕ) : ℚ) / (48000 : ℚ)) ∧
       round ((([(1 : ℚ), 2, 3].length * 16000 : ℕ) : ℚ) / (48000 : ℚ)) ≤
         ((downsampleCapture 48000 16000 [(1 : ℚ), 2, 3]).length : ℤ) + 1)
    ∧ (downsampleCapture 16000 48000 [(5 : ℚ)]).length = [(5 : ℚ)].length :=
  ⟨(resample_length_bound 48000 16000 (by decide) (by decide)
      [(1 : ℚ), 2, 3]).1,
   (resample_length_bound 48000 16000 (by decide) (by decide)
      [(1 : ℚ), 2, 3]).2.1 (by decide),
   (resample_length_bound 16000 48000 (by decide) (by decide)
      [(5 : ℚ)]).2.2 (by decide)⟩

/-- A schedule has one entry per submitted buffer. -/
theorem scheduleFrom_length : ∀ (next : ℚ) (L : List (ℚ × ℚ)),
    (scheduleFrom next L).length = L.length
  | _, [] => rfl
  | next, (c, d) :: rest => by
    simp [scheduleFrom, scheduleFrom_length _ rest]

/-- Scheduling leaves every buffer's duration unchanged. -/
theorem scheduleFrom_dur : ∀ (next : ℚ) (L : List (ℚ × ℚ)) (i : ℕ),
    ((scheduleFrom next L).getD i (0, 0)).2 = (L.getD i (0, 0)).2
  | _, [], _ => rfl
  | _, (c, d) :: rest, 0 => by simp [scheduleFrom]
  | next, (c, d) :: rest, j + 1 => by
    simp only [scheduleFrom, List.getD_cons_succ]
    exact scheduleFrom_dur _ rest j

/-- Every scheduled start time is at least the device-clock reading taken
when that buffer was scheduled. -/
theorem scheduleFrom_clock_le : ∀ (next : ℚ) (L : List (ℚ × ℚ)) (i : ℕ),
    i < L.length →
    (L.getD i (0, 0)).1 ≤ ((scheduleFrom next L).getD i (0, 0)).1
  | _, [], i, hi => by simp at hi
  | next, (c, d) :: rest, 0, _ => by
    simp only [scheduleFrom, List.getD_cons_zero]
    by_cases h : next < c
    · simp [h]
    · simp [h]
      exact le_of_not_lt h
  | next, (c, d) :: rest, j + 1, hi => by
    simp only [scheduleFrom, List.getD_cons_succ]
    exact scheduleFrom_clock_le _ rest j (by simpa using hi)

/-- With nonnegative durations, every scheduled start time is at least the
`nextPlayTime` the schedule run started from. -/
theorem scheduleFrom_next_le : ∀ (next : ℚ) (L : List (ℚ × ℚ)) (i : ℕ),
    (∀ p ∈ L, 0 ≤ p.2) → i < L.length →
    next ≤ ((scheduleFrom next L).getD i (0, 0)).1
  | _, [], i, _, hi => by simp at hi
  | next, (c, d) :: rest, 0, _, _ => by
    simp only [scheduleFrom, List.getD_cons_zero]
    by_cases h : next < c
    · simp [h, le_of_lt h]
    · simp [h]
  | next, (c, d) :: rest, j + 1, hd, hi => by
    simp only [scheduleFrom, List.getD_cons_succ]
    have hd0 : (0 : ℚ) ≤ d := hd (c, d) (List.mem_cons_self _ _)
    have hst : next ≤ (if next < c then c else next) := by
      by_cases h : next < c
      · simp [h, le_of_lt h]
      · simp [h]
    refine le_trans ?_ (scheduleFrom_next_le _ rest j
      (fun p hp => hd p (List.mem_cons_of_mem _ hp)) (by simpa using hi))
    linarith

/-- Consecutive scheduled buffers never overlap: each buffer starts no
earlier than the previous one's start plus its duration. -/
theorem scheduleFrom_chain : ∀ (next : ℚ) (L : List (ℚ × ℚ)) (i : ℕ),
    (∀ p ∈ L, 0 ≤ p.2) → i + 1 < L.length →
    ((scheduleFrom next L).getD i (0, 0)).1 +
        ((scheduleFrom next L).getD i (0, 0)).2 ≤
      ((scheduleFrom next L).getD (i + 1) (0, 0)).1
  | _, [], i, _, hi => by simp at hi
  | next, (c, d) :: rest, 0, hd, hi => by
    simp only [scheduleFrom, List.getD_cons_zero, List.getD_cons_succ]
    exact scheduleFrom_next_le _ rest 0
      (fun p hp => hd p (List.mem_cons_of_mem _ hp)) (by simpa using hi)
  | next, (c, d) :: rest, j + 1, hd, hi => by
    simp only [scheduleFrom, List.getD_cons_succ]
    exact scheduleFrom_chain _ rest j
      (fun p hp => hd p (List.mem_cons_of_mem _ hp)) (by simpa using hi)

/-- C1: for buffers submitted in order with arbitrary device-clock
readings at their scheduling moments and nonnegative durations, the
resulting schedule (one entry per buffer, in submission order, durations
unchanged) has start times that never overlap
(`start(B(i+1)) ≥ start(Bi) + duration(Bi)`), are non-decreasing, and are
each at least the device clock read when the buffer was scheduled. -/
theorem playback_schedule_invariant (L : List (ℚ × ℚ)) (i : ℕ)
    (hd : ∀ p ∈ L, 0 ≤ p.2) :
    (i + 1 < (scheduleFrom 0 L).length →
        ((scheduleFrom 0 L).getD i (0, 0)).1 +
              ((scheduleFrom 0 L).getD i (0, 0)).2 ≤
            ((scheduleFrom 0 L).getD (i + 1) (0, 0)).1
          ∧ ((scheduleFrom 0 L).getD i (0, 0)).1 ≤
            ((scheduleFrom 0 L).getD (i + 1) (0, 0)).1)
    ∧ (i < (scheduleFrom 0 L).length →
        (L.getD i (0, 0)).1 ≤ ((scheduleFrom 0 L).getD i (0, 0)).1)
    ∧ ((scheduleFrom 0 L).getD i (0, 0)).2 = (L.getD i (0, 0)).2 := by
  have hlen := scheduleFrom_length 0 L
  refine ⟨?_, ?_, scheduleFrom_dur 0 L i⟩
  · intro hi
    rw [hlen] at hi
    have hchain := scheduleFrom_chain 0 L i hd hi
    have hdur : (0 : ℚ) ≤ ((scheduleFrom 0 L).getD i (0, 0)).2 := by
      rw [scheduleFrom_dur 0 L i]
      have hiL : i < L.length := Nat.lt_of_succ_lt hi
      have hmem : L.getD i (0, 0) ∈ L := by
        rw [List.getD_eq_getElem _ _ hiL]
        exact List.getElem_mem hiL
      exact hd _ hmem
    exact ⟨hchain, by linarith⟩
  · intro hi
    rw [hlen] at hi
    exact scheduleFrom_clock_le 0 L i hi

/-- Witness for C1 on buffers with clock readings `0, 5, 3` and durations
`1, 2, 1` (schedule `[(0,1), (5,2), (7,1)]`), at index 0. -/
theorem playback_schedule_witness :
    (((scheduleFrom 0 [((0 : ℚ), (1 : ℚ)), (5, 2), (3, 1)]).getD 0 (0, 0)).1 +
          ((scheduleFrom 0 [((0 : ℚ), (1 : ℚ)), (5, 2), (3, 1)]).getD 0 (0, 0)).2 ≤
        ((scheduleFrom 0 [((0 : ℚ), (1 : ℚ)), (5, 2), (3, 1)]).getD 1 (0, 0)).1
      ∧ ((scheduleFrom 0 [((0 : ℚ), (1 : ℚ)), (5, 2), (3, 1)]).getD 0 (0, 0)).1 ≤
        ((scheduleFrom 0 [((0 : ℚ), (1 : ℚ)), (5, 2), (3, 1)]).getD 1 (0, 0)).1)
    ∧ ([((0 : ℚ), (1 : ℚ)), (5, 2), (3, 1)].getD 0 (0, 0)).1 ≤
        ((scheduleFrom 0 [((0 : ℚ), (1 : ℚ)), (5, 2), (3, 1)]).getD 0 (0, 0)).1 :=
  ⟨(playback_schedule_invariant [((0 : ℚ), (1 : ℚ)), (5, 2), (3, 1)] 0
      (by decide)).1 (by decide),
   (playback_schedule_invariant [((0 : ℚ), (1 : ℚ)), (5, 2), (3, 1)] 0
      (by decide)).2.1 (by decide)⟩

/-- `countEv` distributes over trace concatenation. -/
theorem countEv_append (e : Ev) (a b : List Ev) :
    countEv e (a ++ b) = countEv e a + countEv e b := by
  induction a with
  | nil => simp [countEv]
  | cons x xs ih => simp [countEv, ih]; ring

/-- A trace none of whose events is `e` contains `e` zero times. -/
theorem countEv_eq_zero {e : Ev} {l : List Ev} (h : ∀ x ∈ l, x ≠ e) :
    countEv e l = 0 := by
  induction l with
  | nil => rfl
  | cons x xs ih =>
    have hx : x ≠ e := h x (List.mem_cons_self _ _)
    simp [countEv, hx, ih (fun y hy => h y (List.mem_cons_of_mem _ hy))]

/-- The first occurrence of `e` after a prefix free of `e` sits past that
prefix. -/
theorem idxOfEv_append {e : Ev} {a : List Ev} (b : List Ev)
    (h : ∀ x ∈ a, x ≠ e) :
    idxOfEv e (a ++ b) = a.length + idxOfEv e b := by
  induction a with
  | nil => simp [idxOfEv]
  | cons x xs ih =>
    have hx : x ≠ e := h x (List.mem_cons_self _ _)
    simp [idxOfEv, hx, ih (fun y hy => h y (List.mem_cons_of_mem _ hy))]
    ring

/-- No event of the teardown suffix of `runTrace` is a send or a submit. -/
theorem teardown_no_send : ∀ (j : ℕ),
    (Ev.closeChannel :: cleanupEvents).getD j Ev.terminateEv ≠ Ev.sendEv ∧
      (Ev.closeChannel :: cleanupEvents).getD j Ev.terminateEv ≠ Ev.submitEv
  | 0 => by decide
  | 1 => by decide
  | 2 => by decide
  | 3 => by decide
  | j + 4 => by
    simp [cleanupEvents, List.getD_cons_succ, List.getD_nil]

/-- C6 counterexample: in the teardown of `run` triggered by stop (taking
the trace with an empty loop body), the channel close happens before the
capture close, so the claimed order capture → playback → channel is
violated at its very first step. -/
theorem stop_close_order_cex :
    ¬ (idxOfEv Ev.closeCapture (runTrace []) <
        idxOfEv Ev.closeChannel (runTrace [])) := by
  decide

/-- C6 (amended): for any session body of send/submit events, the teardown
of `run` gives CaptureSource, PlaybackSink and RemoteSpeechChannel exactly
one close each, in the order channel first, then capture, then playback
(the `async with` exit closes the channel before `cleanup` closes the two
devices), and no send or submit occurs after any close. -/
theorem stop_close_order (body : List Ev) (i : ℕ)
    (hbody : ∀ e ∈ body, e = Ev.sendEv ∨ e = Ev.submitEv) :
    countEv Ev.closeChannel (runTrace body) = 1
    ∧ countEv Ev.closeCapture (runTrace body) = 1
    ∧ countEv Ev.closePlayback (runTrace body) = 1
    ∧ idxOfEv Ev.closeChannel (runTrace body) <
        idxOfEv Ev.closeCapture (runTrace body)
    ∧ idxOfEv Ev.closeCapture (runTrace body) <
        idxOfEv Ev.closePlayback (runTrace body)
    ∧ ((runTrace body).getD i Ev.terminateEv = Ev.sendEv ∨
        (runTrace body).getD i Ev.terminateEv = Ev.submitEv →
        i < body.length) := by
  have hnot : ∀ (e : Ev), e ≠ Ev.sendEv → e ≠ Ev.submitEv →
      ∀ x ∈ body, x ≠ e := by
    intro e he1 he2 x hx
    rcases hbody x hx with h | h <;> subst h
    · exact fun h => he1 h.symm
    · exact fun h => he2 h.symm
  refine ⟨?_, ?_, ?_, ?_, ?_, ?_⟩
  · rw [runTrace, countEv_append,
      countEv_eq_zero (hnot Ev.closeChannel (by decide) (by decide))]
    decide
  · rw [runTrace, countEv_append,
      countEv_eq_zero (hnot Ev.closeCapture (by decide) (by decide))]
    decide
  · rw [runTrace, countEv_append,
      countEv_eq_zero (hnot Ev.closePlayback (by decide) (by decide))]
    decide
  · rw [runTrace,
      idxOfEv_append _ (hnot Ev.closeChannel (by decide) (by decide)),
      idxOfEv_append _ (hnot Ev.closeCapture (by decide) (by decide))]
    have h1 : idxOfEv Ev.closeChannel (Ev.closeChannel :: cleanupEvents) = 0 := by
      decide
    have h2 : idxOfEv Ev.closeCapture (Ev.closeChannel :: cleanupEvents) = 1 := by
      decide
    omega
  · rw [runTrace,
      idxOfEv_append _ (hnot Ev.closeCapture (by decide) (by decide)),
      idxOfEv_append _ (hnot Ev.closePlayback (by decide) (by decide))]
    have h2 : idxOfEv Ev.closeCapture (Ev.closeChannel :: cleanupEvents) = 1 := by
      decide
    have h3 : idxOfEv Ev.closePlayback (Ev.closeChannel :: cleanupEvents) = 2 := by
      decide
    omega
  · intro hsend
    by_contra hge
    have hle : body.length ≤ i := Nat.le_of_not_lt hge
    rw [runTrace, List.getD_append_right _ _ _ _ hle] at hsend
    rcases hsend with h | h
    · exact (teardown_no_send (i - body.length)).1 h
    · exact (teardown_no_send (i - body.length)).2 h

/-- Witness for the amended C6 on a body of one send event, at trace
index 0. -/
theorem stop_close_order_witness :
    countEv Ev.closeChannel (runTrace [Ev.sendEv]) = 1
    ∧ countEv Ev.closeCapture (runTrace [Ev.sendEv]) = 1
    ∧ countEv Ev.closePlayback (runTrace [Ev.sendEv]) = 1
    ∧ idxOfEv Ev.closeChannel (runTrace [Ev.sendEv]) <
        idxOfEv Ev.closeCapture (runTrace [Ev.sendEv])
    ∧ idxOfEv Ev.closeCapture (runTrace [Ev.sendEv]) <
        idxOfEv Ev.closePlayback (runTrace [Ev.sendEv])
    ∧ ((runTrace [Ev.sendEv]).getD 0 Ev.terminateEv = Ev.sendEv ∨
        (runTrace [Ev.sendEv]).getD 0 Ev.terminateEv = Ev.submitEv →
        0 < [Ev.sendEv].length) :=
  stop_close_order [Ev.sendEv] 0 (by decide)

/-- C7: every fatal error path emits at least one human-readable event
before the session terminates: the send-loop and receive-loop exception
handlers print whenever the session is still active, and the
channel-open/connection handler prints unconditionally. -/
theorem fatal_error_observable (running : Bool) (h : running = true) :
    sendLoopErrorOutput running ≠ []
    ∧ receiveLoopErrorOutput running ≠ []
    ∧ connectFailureOutput ≠ [] := by
  subst h
  exact ⟨by simp [sendLoopErrorOutput], by simp [receiveLoopErrorOutput],
    by simp [connectFailureOutput]⟩

/-- Witness for C7 with the session active. -/
theorem fatal_error_observable_witness :
    sendLoopErrorOutput true ≠ []
    ∧ receiveLoopErrorOutput true ≠ []
    ∧ connectFailureOutput ≠ [] :=
  fatal_error_observable true rfl

/-- C8: the wire format is fixed by configuration constants, never
negotiated: outbound audio is signed 16-bit PCM, mono, at 16000 Hz
(PyAudio input stream, outbound MIME type, and the browser capture
target), and inbound audio is treated as signed 16-bit PCM, mono, at
24000 Hz (PyAudio output stream and the browser playback source rate).
All of these are closed constants taking no runtime input. -/
theorem wire_format_fixed :
    inputStreamConfig =
        { format := SampleFormat.int16, channels := 1, rate := 16000 }
    ∧ outputStreamConfig =
        { format := SampleFormat.int16, channels := 1, rate := 24000 }
    ∧ INPUT_RATE = 16000
    ∧ OUTPUT_RATE = 24000
    ∧ sendMimeType = "audio/pcm;rate=16000"
    ∧ captureTargetSampleRate = 16000
    ∧ geminiSampleRate = 24000 :=
  ⟨rfl, rfl, rfl, rfl, rfl, rfl, rfl⟩

/-- Truncation toward zero of a rational lying between two integers (the
lower one nonpositive, the upper one nonnegative) stays between them. -/
theorem jsTrunc_bounds {q : ℚ} {lo hi : ℤ} (hlo : (lo : ℚ) ≤ q)
    (hhi : q ≤ (hi : ℚ)) (hlo0 : lo ≤ 0) (hhi0 : 0 ≤ hi) :
    lo ≤ jsTrunc q ∧ jsTrunc q ≤ hi := by
  unfold jsTrunc
  by_cases hq : q < 0
  · rw [if_pos hq]
    constructor
    · have := Int.ceil_mono hlo
      rwa [Int.ceil_intCast] at this
    · have h0 : ⌈q⌉ ≤ ⌈(0 : ℚ)⌉ := Int.ceil_mono (le_of_lt hq)
      rw [Int.ceil_zero] at h0
      omega
  · rw [if_neg hq]
    constructor
    · have h0 : ⌊(0 : ℚ)⌋ ≤ ⌊q⌋ := Int.floor_mono (le_of_not_lt hq)
      rw [Int.floor_zero] at h0
      omega
    · have := Int.floor_mono hhi
      rwa [Int.floor_intCast] at this

/-- C10: both float-to-PCM conversions produce a value inside the signed
16-bit range `[-32768, 32767]` for every input sample, including inputs
outside `[-1, 1]`: `convertFloat32ToInt16` (app.py) clamps to `[-1, 1]`
before scaling, and the capture conversion (audio_component.py) clamps
the scaled value to the range directly. -/
theorem float_to_pcm_in_range (x : ℚ) :
    (-32768 ≤ convertFloat32ToInt16 x ∧ convertFloat32ToInt16 x ≤ 32767)
    ∧ (-32768 ≤ captureFloat32ToInt16 x ∧ captureFloat32ToInt16 x ≤ 32767) := by
  constructor
  · unfold convertFloat32ToInt16
    have hs1 : (-1 : ℚ) ≤ max (-1) (min 1 x) := le_max_left _ _
    have hs2 : max (-1) (min 1 x) ≤ 1 :=
      max_le (by norm_num) (min_le_left _ _)
    by_cases hs : max (-1) (min 1 x) < 0
    · rw [if_pos hs]
      refine jsTrunc_bounds ?_ ?_ (by norm_num) (by norm_num)
      · push_cast
        nlinarith
      · push_cast
        nlinarith
    · rw [if_neg hs]
      have hs0 : (0 : ℚ) ≤ max (-1) (min 1 x) := le_of_not_lt hs
      refine jsTrunc_bounds ?_ ?_ (by norm_num) (by norm_num)
      · push_cast
        nlinarith
      · push_cast
        nlinarith
  · unfold captureFloat32ToInt16
    have h1 : ((-32768 : ℤ) : ℚ) ≤ max (-32768) (min 32767 (x * 32768)) := by
      push_cast
      exact le_max_left _ _
    have h2 : max (-32768) (min 32767 (x * 32768)) ≤ ((32767 : ℤ) : ℚ) := by
      push_cast
      exact max_le (by norm_num) (min_le_left _ _)
    exact jsTrunc_bounds h1 h2 (by norm_num) (by norm_num)

end VoiceBot
